import Mathlib

/-!
Verification development for the libxml-ruby schema binding
(`ext/libxml/ruby_xml_schema.c`) and the XML Schema validation engine it
exposes.  The wrapper code under `src/` is embedded directly; the
validation engine itself lives in the wrapped native library and is
modelled from the specification.
-/

set_option maxHeartbeats 1000000

namespace LibXmlRuby

/-! ## Embedding of `ext/libxml/ruby_xml_schema.c` -/

/-- A Ruby `VALUE` as seen by the wrapper: only its runtime type tag and,
for strings, its byte content matter.  A Ruby string records its own
length and may contain embedded NUL bytes. -/
inductive RubyValue where
  | string (bytes : List Nat)
  | fixnum (n : Int)
  | nilValue
  | other
deriving DecidableEq, Repr

/-- Exceptions the wrapper can raise: `Check_Type` raises `TypeError`
when the argument tag is not `T_STRING`. -/
inductive RubyError where
  | typeError
deriving DecidableEq, Repr

/-- The `ruby_xml_schema` struct: holds the native `xmlSchemaPtr`.
`none` models a NULL pointer (schema parse failed or already freed);
`some h` models a live native handle `h`. -/
structure ruby_xml_schema where
  schema : Option Nat
deriving DecidableEq, Repr

/-- `StringValuePtr` hands C a NUL-terminated byte pointer, so C code such
as `strlen` only ever sees the bytes before the first NUL byte of the
Ruby string's content. -/
def cstrTruncate (bs : List Nat) : List Nat :=
  bs.takeWhile (fun b => b ≠ 0)

/-- Tag test performed by `Check_Type(v, T_STRING)`. -/
def isStringValue : RubyValue → Bool
  | .string _ => true
  | _ => false

/-- `ruby_xml_schema_init_from_uri` (registered as `XML::Schema.new`):
checks the argument is a string, builds a parser context from the C
string, parses, and always wraps the resulting (possibly NULL) schema
pointer.  The native parse chain
`xmlSchemaNewParserCtxt`/`xmlSchemaParse` is abstracted by the
function argument `xmlParse`, which sees the NUL-truncated bytes. -/
def ruby_xml_schema_init_from_uri (xmlParse : List Nat → Option Nat)
    (uri : RubyValue) : Except RubyError ruby_xml_schema :=
  match uri with
  | .string bs => .ok { schema := xmlParse (cstrTruncate bs) }
  | _ => .error .typeError

/-- `ruby_xml_schema_init_from_string` (registered as
`XML::Schema.from_string`): checks the argument is a string and parses
from memory.  The buffer length passed to `xmlSchemaNewMemParserCtxt` is
`strlen(StringValuePtr(schema_str))`, i.e. the number of bytes before
the first NUL — not the Ruby string's recorded length — so the parser,
abstracted by `xmlParse`, sees exactly the NUL-truncated bytes. -/
def ruby_xml_schema_init_from_string (xmlParse : List Nat → Option Nat)
    (schema_str : RubyValue) : Except RubyError ruby_xml_schema :=
  match schema_str with
  | .string bs => .ok { schema := xmlParse (cstrTruncate bs) }
  | _ => .error .typeError

/-- `ruby_xml_schema_free`: frees the native schema only when the pointer
is non-NULL, then NULLs the pointer.  Returns the updated struct and the
number of `xmlSchemaFree` calls performed (0 or 1). -/
def ruby_xml_schema_free (rxschema : ruby_xml_schema) :
    ruby_xml_schema × Nat :=
  if rxschema.schema.isSome then ({ schema := none }, 1)
  else (rxschema, 0)

/-- Total number of `xmlSchemaFree` calls performed when the finalizer is
invoked `n` times in a row on the same struct. -/
def freeCallCount (w : ruby_xml_schema) : Nat → Nat
  | 0 => 0
  | n + 1 =>
      (ruby_xml_schema_free w).2 + freeCallCount (ruby_xml_schema_free w).1 n

end LibXmlRuby

namespace XmlSchemaEngine

/-! ## The XML Schema validation engine

The wrapper above delegates grammar compilation and validation to the
native library, which is not part of the repository tree; the engine
below is modelled from the specification (components 2-5: Schema
Grammar Compiler, Validation Context, Constraint Evaluator, Diagnostics
Reporter). -/

/-- Modelled from the spec: severity of a validation diagnostic. -/
inductive Severity where
  | error
  | warning
deriving DecidableEq, Repr

/-- Modelled from the spec: a single validation finding, a
(message, severity) pair. -/
structure Diagnostic where
  message : String
  severity : Severity
deriving DecidableEq, Repr

/-- A namespace-qualified name; all lookups are (namespace, local-name)
pairs. -/
structure QName where
  ns : String
  localName : String
deriving DecidableEq, Repr

/-- Modelled from the spec: an element node of the external Document
Model — name, attributes, text content and child elements. -/
inductive Element where
  | mk (name : QName) (attrs : List (QName × String)) (text : String)
       (children : List Element)

def Element.name : Element → QName
  | .mk n _ _ _ => n

def Element.attrs : Element → List (QName × String)
  | .mk _ a _ _ => a

def Element.text : Element → String
  | .mk _ _ t _ => t

def Element.children : Element → List Element
  | .mk _ _ _ cs => cs

/-- Modelled from the spec: a parsed document; `root = none` models a
document with no root element. -/
structure Document where
  root : Option Element

/-- Modelled from the spec: a constraining facet on a simple datatype. -/
inductive Facet where
  | enumeration (vals : List String)
  | lengthEq (n : Nat)
  | minLength (n : Nat)
  | maxLength (n : Nat)
deriving DecidableEq, Repr

/-- Modelled from the spec: a simple type — base datatype plus facets. -/
structure SimpleType where
  base : String
  facets : List Facet
deriving DecidableEq, Repr

/-- Modelled from the spec: an occurrence-constrained reference to an
element within a content model; `maxOccurs = none` means unbounded. -/
structure Particle where
  ref : QName
  minOccurs : Nat
  maxOccurs : Option Nat
deriving DecidableEq, Repr

/-- Modelled from the spec: an attribute use of a complex type. -/
structure AttributeUse where
  name : QName
  required : Bool
  typeRef : Option String
deriving DecidableEq, Repr

/-- Modelled from the spec: a complex type — a sequence content model of
particles plus attribute uses. -/
structure ComplexType where
  particles : List Particle
  attributes : List AttributeUse
deriving DecidableEq, Repr

/-- Modelled from the spec: a named type definition, simple or complex. -/
inductive TypeDef where
  | simple (st : SimpleType)
  | complex (ct : ComplexType)
deriving DecidableEq, Repr

/-- Modelled from the spec: a top-level element declaration. -/
structure ElementDecl where
  name : QName
  typeRef : Option String
deriving DecidableEq, Repr

/-- Modelled from the spec: the immutable compiled Grammar — named type
definitions and top-level element declarations. -/
structure Grammar where
  types : List (String × TypeDef)
  elements : List ElementDecl
deriving DecidableEq, Repr

/-! ### Constraint Evaluator -/

/-- Look up a named type definition in the grammar's symbol table. -/
def lookupTypeDef (g : Grammar) (n : String) : Option TypeDef :=
  (g.types.find? (fun p => p.1 == n)).map (fun p => p.2)

/-- The `xsi` namespace used by the `xsi:type` override attribute. -/
def xsiNs : String := "http://www.w3.org/2001/XMLSchema-instance"

/-- Modelled from the spec: an element's `xsi:type` override, when
present among its attributes. -/
def xsiTypeOf (e : Element) : Option String :=
  (e.attrs.find? (fun p => p.1 == QName.mk xsiNs "type")).map (fun p => p.2)

/-- Look up a matching top-level element declaration by
(namespace, local-name). -/
def findElemDecl (g : Grammar) (n : QName) : Option ElementDecl :=
  g.elements.find? (fun d => d.name == n)

/-- Modelled from the spec: resolve an element's declared type, directly
or via an `xsi:type` override when present. -/
def resolveTypeOf (g : Grammar) (e : Element) : Option TypeDef :=
  match xsiTypeOf e with
  | some t => lookupTypeDef g t
  | none => (findElemDecl g e.name).bind (fun d => d.typeRef.bind (lookupTypeDef g))

/-- Modelled from the spec: check one facet against an attribute value or
text content; a violation names the failing facet in the message. -/
def facetDiags (value : String) : Facet → List Diagnostic
  | .enumeration vals =>
      if vals.contains value then []
      else [⟨"value violates enumeration facet", .error⟩]
  | .lengthEq n =>
      if value.length = n then []
      else [⟨"value violates length facet", .error⟩]
  | .minLength n =>
      if n ≤ value.length then []
      else [⟨"value violates minLength facet", .error⟩]
  | .maxLength n =>
      if value.length ≤ n then []
      else [⟨"value violates maxLength facet", .error⟩]

/-- Modelled from the spec: validate a value against a simple type's
facets. -/
def simpleTypeDiags (st : SimpleType) (value : String) : List Diagnostic :=
  (st.facets.map (facetDiags value)).flatten

/-- Modelled from the spec: validate one attribute use — required
attribute absent is an Error; a present value is checked against the
attribute's simple type facets. -/
def attrUseDiags (g : Grammar) (attrs : List (QName × String))
    (u : AttributeUse) : List Diagnostic :=
  match attrs.find? (fun p => p.1 == u.name) with
  | none =>
      if u.required then [⟨"required attribute absent", .error⟩] else []
  | some p =>
      match u.typeRef.bind (lookupTypeDef g) with
      | some (.simple st) => simpleTypeDiags st p.2
      | _ => []

/-- Number of children matching a particle's element reference. -/
def countMatching (children : List Element) (p : Particle) : Nat :=
  children.countP (fun c => c.name == p.ref)

/-- Modelled from the spec: occurrence check of one particle against the
child list — too few matches is a missing-required-element Error, too
many an unexpected-element Error. -/
def particleDiags (children : List Element) (p : Particle) : List Diagnostic :=
  (if countMatching children p < p.minOccurs then
    [⟨"missing required element", .error⟩]
   else []) ++
  (match p.maxOccurs with
   | some mx =>
       if mx < countMatching children p then
         [⟨"unexpected element", .error⟩]
       else []
   | none => [])

/-- Modelled from the spec: occurrence checks of a whole content model,
in particle declaration order. -/
def contentModelDiags (ct : ComplexType) (children : List Element) :
    List Diagnostic :=
  (ct.particles.map (particleDiags children)).flatten

/-- Modelled from the spec: the diagnostics emitted at a single element
before descending into its children — type resolution, simple-content
facet checks, attribute checks and content-model occurrence checks. -/
def localDiags (g : Grammar) (e : Element) : List Diagnostic :=
  match resolveTypeOf g e with
  | none => [⟨"no type definition resolved for element", .error⟩]
  | some (.simple st) => simpleTypeDiags st e.text
  | some (.complex ct) =>
      (ct.attributes.map (attrUseDiags g e.attrs)).flatten ++
      contentModelDiags ct e.children

/-- The particles a child of `e` may match, empty unless `e` resolves to
a complex type. -/
def childParticles (g : Grammar) (e : Element) : List Particle :=
  match resolveTypeOf g e with
  | some (.complex ct) => ct.particles
  | _ => []

/-- A child is expected when some particle of the parent's content model
references its (namespace, local-name). -/
def expectedChild (ps : List Particle) (c : Element) : Bool :=
  ps.any (fun p => p.ref == c.name)

/-- Diagnostic emitted at an element the content model does not allow. -/
def unexpectedElemDiag : Diagnostic :=
  ⟨"unexpected element", .error⟩

mutual

/-- Modelled from the spec: depth-first constraint evaluation of one
element — its own diagnostics first, then its children's, in document
order (pre-order traversal). -/
def elemDiags (g : Grammar) : Element → List Diagnostic
  | .mk n a t cs =>
      localDiags g (.mk n a t cs) ++
      childrenDiags g (childParticles g (.mk n a t cs)) cs

/-- Modelled from the spec: evaluate a sibling list in declaration order;
a child matched by no particle yields a single unexpected-element Error
and is not descended into. -/
def childrenDiags (g : Grammar) (ps : List Particle) :
    List Element → List Diagnostic
  | [] => []
  | c :: cs =>
      (if expectedChild ps c then elemDiags g c else [unexpectedElemDiag]) ++
      childrenDiags g ps cs

end

/-- Modelled from the spec: the full validation pass — locate the root
element, look up its top-level declaration, then run the constraint
evaluator; the two structural failures each yield a single Error. -/
def docDiags (g : Grammar) (d : Document) : List Diagnostic :=
  match d.root with
  | none => [⟨"document has no root element", .error⟩]
  | some r =>
      match findElemDecl g r.name with
      | none => [⟨"no declaration found for root element", .error⟩]
      | some _ => elemDiags g r

/-! ### Diagnostics Reporter and the `Validate` entry point -/

/-- Whether a diagnostic has Error severity. -/
def isErrorDiag (d : Diagnostic) : Bool :=
  d.severity == .error

/-- Modelled from the spec: the boolean validity derived from a run's
diagnostics — true iff zero Error-severity diagnostics were produced. -/
def validityOf (ds : List Diagnostic) : Bool :=
  ds.all (fun d => !(isErrorDiag d))

/-- Modelled from the spec: where a run's diagnostics ended up — the
sequence of synchronous handler invocations (each given the pair
(message, is_error)) and the lines written to the default sink
(standard error stream). -/
structure Delivery where
  handlerCalls : List (String × Bool)
  stderrLines : List String
deriving DecidableEq, Repr

/-- Modelled from the spec: deliver the diagnostics, in generation
order, to the caller-supplied handler when one is supplied, otherwise
to the default stderr sink — never to both. -/
def deliverDiags (hasHandler : Bool) (ds : List Diagnostic) : Delivery :=
  if hasHandler then
    { handlerCalls := ds.map (fun d => (d.message, isErrorDiag d)),
      stderrLines := [] }
  else
    { handlerCalls := [], stderrLines := ds.map (fun d => d.message) }

/-- Modelled from the spec:
`Validate(grammar, doc, sink) -> bool`, together with the observable
delivery of its diagnostics.  `hasHandler` records whether the optional
sink was supplied. -/
def Validate (g : Grammar) (d : Document) (hasHandler : Bool) :
    Bool × Delivery :=
  (validityOf (docDiags g d), deliverDiags hasHandler (docDiags g d))

/-- A sequence of independent validation calls, each with its own fresh
context; used to state that one call's output does not depend on the
other calls in the sequence. -/
def validateSeq (calls : List (Grammar × Document × Bool)) :
    List (Bool × Delivery) :=
  calls.map (fun c => Validate c.1 c.2.1 c.2.2)

/-! ### Validation Context (state-threaded evaluator) -/

/-- Modelled from the spec: the context states Created, Running,
Completed. -/
inductive RunState where
  | created
  | running
  | completed
deriving DecidableEq, Repr

/-- Modelled from the spec: the per-run Validation Context — the bound
grammar and document, the current scope stack, the accumulated
diagnostics, and the run state. -/
structure ValidationContext where
  grammar : Grammar
  document : Document
  scope : List QName
  diags : List Diagnostic
  state : RunState

/-- Append freshly produced diagnostics to the context's accumulator
(insertion order, oldest first). -/
def emitAll (ds : List Diagnostic) (c : ValidationContext) :
    ValidationContext :=
  { c with diags := c.diags ++ ds }

mutual

/-- The constraint evaluator threaded through the Validation Context:
push the element on the scope stack, emit its local diagnostics, descend
into its children, pop the scope.  Only `scope` and `diags` change. -/
def evalElemCtx : Element → ValidationContext → ValidationContext
  | .mk n a t cs, c =>
      let c1 := { c with scope := n :: c.scope }
      let c2 := emitAll (localDiags c1.grammar (.mk n a t cs)) c1
      let c3 := evalChildrenCtx (childParticles c2.grammar (.mk n a t cs)) cs c2
      { c3 with scope := c3.scope.tail }

/-- Evaluate a sibling list left to right through the context. -/
def evalChildrenCtx (ps : List Particle) :
    List Element → ValidationContext → ValidationContext
  | [], c => c
  | x :: xs, c =>
      let c1 :=
        if expectedChild ps x then evalElemCtx x c
        else emitAll [unexpectedElemDiag] c
      evalChildrenCtx ps xs c1

end

/-- Modelled from the spec: one full validation run — a fresh context is
created on entry, bound to the grammar and document, driven through the
traversal, and moved to Completed exactly once. -/
def runValidate (g : Grammar) (d : Document) : ValidationContext :=
  let c0 : ValidationContext :=
    { grammar := g, document := d, scope := [], diags := [],
      state := .running }
  let c1 :=
    match d.root with
    | none => emitAll [⟨"document has no root element", .error⟩] c0
    | some r =>
        match findElemDecl g r.name with
        | none => emitAll [⟨"no declaration found for root element", .error⟩] c0
        | some _ => evalElemCtx r c0
  { c1 with state := .completed }

/-! ### Schema Grammar Compiler -/

/-- Modelled from the spec: the compilation failure taxonomy.
`badSyntax` is the malformed-XML case called SyntaxError in the spec. -/
inductive CompileError where
  | badSyntax
  | unresolvedReference (name : String)
  | cyclicDerivation (name : String)
  | emptySource
deriving DecidableEq, Repr

/-- Modelled from the spec: a top-level type declaration of a schema
document — its name, its derivation base (the type it extends or
restricts, when any), and its body. -/
structure TypeDecl where
  name : String
  baseRef : Option String
  body : TypeDef
deriving DecidableEq, Repr

/-- Modelled from the spec: the schema-document tree obtained by parsing
schema source — top-level type declarations and element declarations. -/
structure SchemaDoc where
  typeDecls : List TypeDecl
  elemDecls : List ElementDecl
deriving DecidableEq, Repr

/-- Modelled from the spec: a schema source after the front-end XML
parse, which is delegated to the external Document Model parser —
either empty/missing, malformed XML syntax, or a well-formed
schema-document tree.  URI, text and pre-parsed document inputs all
funnel into this one representation. -/
inductive SchemaSource where
  | empty
  | malformed (raw : String)
  | wellFormed (doc : SchemaDoc)
deriving DecidableEq, Repr

/-- Built-in primitive datatypes that every reference may resolve to. -/
def builtinTypes : List String :=
  ["string", "integer", "boolean", "decimal", "anyType"]

/-- A name reference resolves when it names a declared type or a
built-in. -/
def resolvesIn (d : SchemaDoc) (n : String) : Bool :=
  (d.typeDecls.map (fun t => t.name)).contains n || builtinTypes.contains n

/-- Modelled from the spec: the first unresolved cross-reference found
while resolving all references by name lookup — a type's derivation base
or an element's type reference. -/
def firstUnresolved (d : SchemaDoc) : Option String :=
  match d.typeDecls.findSome?
      (fun t => match t.baseRef with
       | some b => if resolvesIn d b then none else some b
       | none => none) with
  | some b => some b
  | none =>
      d.elemDecls.findSome?
        (fun e => match e.typeRef with
         | some r => if resolvesIn d r then none else some r
         | none => none)

/-- Derivation base of a declared type name, if both exist. -/
def baseOf (d : SchemaDoc) (n : String) : Option String :=
  (d.typeDecls.find? (fun t => t.name == n)).bind (fun t => t.baseRef)

/-- The derivation chain starting at `n` is still going after `fuel`
steps; with fuel one more than the number of declarations this witnesses
a cycle, since an acyclic chain over the declared names cannot be that
long. -/
def chainExceeds (d : SchemaDoc) : Nat → String → Bool
  | 0, _ => true
  | fuel + 1, n =>
      match baseOf d n with
      | none => false
      | some b => chainExceeds d fuel b

/-- Modelled from the spec: detect cycles in type derivation chains,
reporting the first declared type sitting on a cycle. -/
def firstCyclic (d : SchemaDoc) : Option String :=
  (d.typeDecls.find?
    (fun t => chainExceeds d (d.typeDecls.length + 1) t.name)).map
    (fun t => t.name)

/-- Modelled from the spec:
`compile(source) -> Result<Grammar, CompileError>` — empty source,
malformed syntax, unresolved references and cyclic derivations each
abort compilation with the corresponding error and no Grammar;
otherwise the immutable Grammar is built from the declarations. -/
def compile : SchemaSource → Except CompileError Grammar
  | .empty => .error .emptySource
  | .malformed _ => .error .badSyntax
  | .wellFormed d =>
      match firstUnresolved d with
      | some b => .error (.unresolvedReference b)
      | none =>
          match firstCyclic d with
          | some n => .error (.cyclicDerivation n)
          | none =>
              .ok { types := d.typeDecls.map (fun t => (t.name, t.body)),
                    elements := d.elemDecls }

/-! ### Example inputs used by witnesses -/

/-- The empty grammar. -/
def gEmpty : Grammar := { types := [], elements := [] }

/-- A document with no root element. -/
def dNoRoot : Document := { root := none }

/-- A document whose root element matches no top-level declaration of
`gEmpty`. -/
def dBadRoot : Document :=
  { root := some (.mk ⟨"", "z"⟩ [] "" []) }

/-- A sample warning diagnostic. -/
def warnDiag : Diagnostic := ⟨"sample warning", .warning⟩

/-! ### Helper lemmas -/

theorem validityOf_append (ds1 ds2 : List Diagnostic) :
    validityOf (ds1 ++ ds2) = (validityOf ds1 && validityOf ds2) := by
  simp [validityOf, List.all_append]

theorem isErrorDiag_of_warning (w : Diagnostic) (h : w.severity = .warning) :
    isErrorDiag w = false := by
  simp [isErrorDiag, h]

mutual

theorem evalElemCtx_spec (e : Element) (c : ValidationContext) :
    evalElemCtx e c = { c with diags := c.diags ++ elemDiags c.grammar e } := by
  match e with
  | .mk n a t cs =>
    rw [evalElemCtx, evalChildrenCtx_spec, elemDiags]
    simp [emitAll]

theorem evalChildrenCtx_spec (ps : List Particle) (xs : List Element)
    (c : ValidationContext) :
    evalChildrenCtx ps xs c =
      { c with diags := c.diags ++ childrenDiags c.grammar ps xs } := by
  match xs with
  | [] => simp [evalChildrenCtx, childrenDiags]
  | x :: rest =>
    rw [evalChildrenCtx, evalChildrenCtx_spec, childrenDiags]
    by_cases h : expectedChild ps x
    · simp [h, evalElemCtx_spec x, emitAll]
    · simp [h, emitAll]

end

/-! ### Claim theorems -/

/-- C1: `Validate(G, D, sink)` returns true if and only if the
validation pass produced zero Error-severity diagnostics, and
Warning-severity diagnostics never change the returned boolean: the
validity of a diagnostic sequence is unchanged by removing a warning
from anywhere in it. -/
theorem validate_true_iff_zero_errors (g : Grammar) (d : Document)
    (hasHandler : Bool) :
    ((Validate g d hasHandler).1 = true ↔
      (docDiags g d).countP isErrorDiag = 0) ∧
    (∀ (ds1 ds2 : List Diagnostic) (w : Diagnostic),
      w.severity = .warning →
      validityOf (ds1 ++ w :: ds2) = validityOf (ds1 ++ ds2)) := by
  constructor
  · simp [Validate, validityOf, List.all_eq_true, List.countP_eq_zero]
  · intro ds1 ds2 w hw
    simp [validityOf, List.all_append, List.all_cons,
      isErrorDiag_of_warning w hw]

/-- Witness for C1 at a concrete grammar, document and warning. -/
theorem validate_true_iff_zero_errors_witness :
    ((Validate gEmpty dNoRoot true).1 = true ↔
      (docDiags gEmpty dNoRoot).countP isErrorDiag = 0) ∧
    validityOf ([] ++ warnDiag :: []) = validityOf ([] ++ []) :=
  ⟨(validate_true_iff_zero_errors gEmpty dNoRoot true).1,
   (validate_true_iff_zero_errors gEmpty dNoRoot true).2 [] [] warnDiag rfl⟩

/-- C3: in every run the diagnostics go, in generation order, either to
the caller-supplied handler (one invocation per diagnostic, each given
the pair (message, is_error)) or, when no handler is supplied, to the
default stderr sink — never to both destinations in the same run. -/
theorem diagnostics_delivery_exclusive (g : Grammar) (d : Document) :
    (Validate g d true).2 =
      { handlerCalls :=
          (docDiags g d).map (fun x => (x.message, isErrorDiag x)),
        stderrLines := [] } ∧
    (Validate g d false).2 =
      { handlerCalls := [],
        stderrLines := (docDiags g d).map (fun x => x.message) } ∧
    ∀ hasHandler : Bool,
      (Validate g d hasHandler).2.handlerCalls = [] ∨
      (Validate g d hasHandler).2.stderrLines = [] := by
  refine ⟨rfl, rfl, ?_⟩
  intro hasHandler
  cases hasHandler
  · exact Or.inl rfl
  · exact Or.inr rfl

/-- C4: `Validate` is deterministic and repeatable — every element of a
sequence of repeated calls with the same (Grammar, Document) pair (and
the same sink choice) equals the single call's result, boolean and
delivered diagnostics alike. -/
theorem validate_deterministic (g : Grammar) (d : Document)
    (hasHandler : Bool) (n : Nat) :
    ∀ r ∈ (List.range n).map (fun _ => Validate g d hasHandler),
      r = Validate g d hasHandler := by
  intro r hr
  rcases List.mem_map.mp hr with ⟨i, _, hi⟩
  exact hi.symm

/-- Witness for C4: two repeated calls on a concrete input. -/
theorem validate_deterministic_witness :
    Validate gEmpty dNoRoot true = Validate gEmpty dNoRoot true :=
  validate_deterministic gEmpty dNoRoot true 2
    (Validate gEmpty dNoRoot true) (by decide)

/-- C5: diagnostics are produced in document pre-order traversal order —
an element's own diagnostics precede its children's, and siblings
contribute in declaration order — which is the accumulator's insertion
order (oldest first); and the result of one validation call in a
sequence of calls is independent of the calls around it. -/
theorem diagnostics_preorder (g : Grammar) (n : QName)
    (a : List (QName × String)) (t : String) (cs : List Element)
    (ps : List Particle) (c : Element) (cs2 : List Element)
    (pre post : List (Grammar × Document × Bool))
    (call : Grammar × Document × Bool) :
    elemDiags g (.mk n a t cs) =
      localDiags g (.mk n a t cs) ++
        childrenDiags g (childParticles g (.mk n a t cs)) cs ∧
    childrenDiags g ps (c :: cs2) =
      (if expectedChild ps c then elemDiags g c else [unexpectedElemDiag]) ++
        childrenDiags g ps cs2 ∧
    (validateSeq (pre ++ call :: post))[pre.length]? =
      some (Validate call.1 call.2.1 call.2.2) := by
  refine ⟨by rw [elemDiags], by rw [childrenDiags], ?_⟩
  unfold validateSeq
  rw [List.map_append, List.getElem?_append_right (by simp)]
  simp

/-- C6: a structural problem found at validation time — the document has
no root element, or no top-level declaration matches the root — yields a
single Error-severity diagnostic and a false boolean, and the call still
completes, returning a boolean-and-delivery pair rather than raising. -/
theorem structural_failure_single_error (g : Grammar) (d : Document)
    (hasHandler : Bool) :
    (d.root = none →
      docDiags g d = [⟨"document has no root element", .error⟩] ∧
      (Validate g d hasHandler).1 = false) ∧
    (∀ r : Element, d.root = some r → findElemDecl g r.name = none →
      docDiags g d = [⟨"no declaration found for root element", .error⟩] ∧
      (Validate g d hasHandler).1 = false) ∧
    ∃ (b : Bool) (del : Delivery), Validate g d hasHandler = (b, del) := by
  refine ⟨?_, ?_, ⟨_, _, rfl⟩⟩
  · intro h
    constructor
    · simp [docDiags, h]
    · simp [Validate, docDiags, h, validityOf, isErrorDiag]
  · intro r hr hdecl
    constructor
    · simp [docDiags, hr, hdecl]
    · simp [Validate, docDiags, hr, hdecl, validityOf, isErrorDiag]

/-- Witness for C6: the two structural failures on concrete documents. -/
theorem structural_failure_single_error_witness :
    (docDiags gEmpty dNoRoot =
      [⟨"document has no root element", .error⟩] ∧
      (Validate gEmpty dNoRoot true).1 = false) ∧
    (docDiags gEmpty dBadRoot =
      [⟨"no declaration found for root element", .error⟩] ∧
      (Validate gEmpty dBadRoot false).1 = false) :=
  ⟨(structural_failure_single_error gEmpty dNoRoot true).1 rfl,
   (structural_failure_single_error gEmpty dBadRoot false).2.1
     (.mk ⟨"", "z"⟩ [] "" []) rfl rfl⟩

/-- C7: a validation run mutates neither the bound grammar nor the bound
document, and its only state change beyond completing is the emission of
the run's diagnostics: the final Validation Context carries the grammar
and document it started from, an empty scope stack, exactly the
diagnostics of the pass, and the Completed state. -/
theorem validate_frame (g : Grammar) (d : Document) :
    (runValidate g d).grammar = g ∧
    (runValidate g d).document = d ∧
    (runValidate g d).scope = [] ∧
    (runValidate g d).diags = docDiags g d ∧
    (runValidate g d).state = .completed := by
  unfold runValidate docDiags
  cases hr : d.root with
  | none => simp [emitAll]
  | some r =>
    cases hd : findElemDecl g r.name with
    | none => simp [hd, emitAll]
    | some dec => simp [hd, evalElemCtx_spec]

/-- Scenario D input: a schema document with a type extending an
undefined base type name. -/
def scenarioD : SchemaDoc :=
  { typeDecls :=
      [{ name := "T", baseRef := some "Missing",
         body := .simple { base := "string", facets := [] } }],
    elemDecls := [] }

/-- C2: every compilation failure in the taxonomy is surfaced to the
caller as the corresponding `CompileError` and no Grammar is returned
with it (the result is either `.error` or `.ok`, never a partial
grammar): empty source, malformed syntax, and any type declaration whose
derivation base does not resolve all abort compilation, the last with
`UnresolvedReference`. -/
theorem compile_errors_surfaced (s : String) (d : SchemaDoc)
    (td : TypeDecl) (b : String) :
    compile .empty = .error .emptySource ∧
    compile (.malformed s) = .error .badSyntax ∧
    (td ∈ d.typeDecls → td.baseRef = some b → resolvesIn d b = false →
      ∃ b2, compile (.wellFormed d) = .error (.unresolvedReference b2)) ∧
    (∀ e : CompileError, compile (.wellFormed d) = .error e →
      ∀ g : Grammar, compile (.wellFormed d) ≠ .ok g) := by
  refine ⟨rfl, rfl, ?_, ?_⟩
  · intro hmem hbase hres
    have hsome : ∃ b2, firstUnresolved d = some b2 := by
      unfold firstUnresolved
      cases hfind : d.typeDecls.findSome?
          (fun t => match t.baseRef with
           | some b0 => if resolvesIn d b0 then none else some b0
           | none => none) with
      | none =>
        exfalso
        have := List.findSome?_eq_none_iff.mp hfind td hmem
        rw [hbase] at this
        simp [hres] at this
      | some b2 => exact ⟨b2, rfl⟩
    obtain ⟨b2, hb2⟩ := hsome
    refine ⟨b2, ?_⟩
    simp [compile, hb2]
  · intro e he g hok
    rw [he] at hok
    exact Except.noConfusion hok

/-- Witness for C2 at Scenario D: compiling a type that extends the
undefined base name "Missing" yields `UnresolvedReference`. -/
theorem compile_errors_surfaced_witness :
    ∃ b2, compile (.wellFormed scenarioD) =
      .error (.unresolvedReference b2) :=
  (compile_errors_surfaced "" scenarioD
      { name := "T", baseRef := some "Missing",
        body := .simple { base := "string", facets := [] } }
      "Missing").2.2.1 (by decide) rfl (by decide)

end XmlSchemaEngine

namespace LibXmlRuby

/-- C8: both string-taking constructors raise `TypeError` on a
non-string argument; on a string argument each always returns a wrapped
schema object — never nil and never an exception — and when the
underlying parse fails the wrapped native handle is NULL. -/
theorem constructors_always_wrap (xmlParseU xmlParseM : List Nat → Option Nat)
    (v : RubyValue) (bs : List Nat) :
    (isStringValue v = false →
      ruby_xml_schema_init_from_uri xmlParseU v = .error .typeError ∧
      ruby_xml_schema_init_from_string xmlParseM v = .error .typeError) ∧
    ruby_xml_schema_init_from_uri xmlParseU (.string bs) =
      .ok { schema := xmlParseU (cstrTruncate bs) } ∧
    ruby_xml_schema_init_from_string xmlParseM (.string bs) =
      .ok { schema := xmlParseM (cstrTruncate bs) } ∧
    (xmlParseM (cstrTruncate bs) = none →
      ruby_xml_schema_init_from_string xmlParseM (.string bs) =
        .ok { schema := none }) := by
  refine ⟨?_, rfl, rfl, ?_⟩
  · intro hv
    cases v with
    | string bs2 => simp [isStringValue] at hv
    | fixnum n => exact ⟨rfl, rfl⟩
    | nilValue => exact ⟨rfl, rfl⟩
    | other => exact ⟨rfl, rfl⟩
  · intro hparse
    simp [ruby_xml_schema_init_from_string, hparse]

/-- Witness for C8: a non-string argument raises `TypeError`; a failing
parse still yields a wrapper, with a NULL handle. -/
theorem constructors_always_wrap_witness :
    ruby_xml_schema_init_from_uri (fun _ => none) (.fixnum 0) =
      .error .typeError ∧
    ruby_xml_schema_init_from_string (fun _ => none) (.string [60]) =
      .ok { schema := none } :=
  ⟨((constructors_always_wrap (fun _ => none) (fun _ => none)
      (.fixnum 0) [60]).1 rfl).1,
   (constructors_always_wrap (fun _ => none) (fun _ => none)
      (.fixnum 0) [60]).2.2.2 rfl⟩

/-- C9: `from_string` hands the parser only the bytes of the Ruby string
before its first NUL byte (the buffer length is `strlen`, not the
recorded string length), so two strings agreeing up to the first NUL
compile to the same schema. -/
theorem from_string_nul_truncates (xmlParse : List Nat → Option Nat)
    (bs bs1 bs2 : List Nat) :
    ruby_xml_schema_init_from_string xmlParse (.string bs) =
      .ok { schema := xmlParse (bs.takeWhile (fun b => b ≠ 0)) } ∧
    (cstrTruncate bs1 = cstrTruncate bs2 →
      ruby_xml_schema_init_from_string xmlParse (.string bs1) =
        ruby_xml_schema_init_from_string xmlParse (.string bs2)) := by
  refine ⟨rfl, ?_⟩
  intro h
  simp [ruby_xml_schema_init_from_string, h]

/-- Witness for C9: `"<" ++ NUL ++ "c"` and `"<" ++ NUL` compile to the
same schema. -/
theorem from_string_nul_truncates_witness :
    ruby_xml_schema_init_from_string (fun b => some b.length)
        (.string [60, 0, 99]) =
      ruby_xml_schema_init_from_string (fun b => some b.length)
        (.string [60, 0]) :=
  (from_string_nul_truncates (fun b => some b.length)
      [] [60, 0, 99] [60, 0]).2 (by decide)

/-- Any struct whose schema pointer is already NULL is never freed
again, however many times the finalizer runs. -/
theorem freeCallCount_of_none (w : ruby_xml_schema)
    (hw : w.schema = none) : ∀ n : Nat, freeCallCount w n = 0 := by
  intro n
  induction n with
  | zero => rfl
  | succ m ih =>
    rw [freeCallCount]
    have hfree : ruby_xml_schema_free w = (w, 0) := by
      simp [ruby_xml_schema_free, hw]
    rw [hfree]
    simpa using ih

/-- C10: releasing a schema wrapper frees the native schema at most
once — over any number of finalizer invocations at most one
`xmlSchemaFree` call happens, the pointer is NULL afterwards, and
further invocations free nothing. -/
theorem schema_freed_at_most_once (w : ruby_xml_schema) (n : Nat) :
    freeCallCount w n ≤ 1 ∧
    (ruby_xml_schema_free w).1.schema = none ∧
    ∀ m : Nat, freeCallCount (ruby_xml_schema_free w).1 m = 0 := by
  cases hs : w.schema with
  | none =>
    have h0 := freeCallCount_of_none w hs
    have hfree : ruby_xml_schema_free w = (w, 0) := by
      simp [ruby_xml_schema_free, hs]
    exact ⟨by rw [h0 n]; omega, by rw [hfree]; exact hs,
      fun m => by rw [hfree]; exact h0 m⟩
  | some h =>
    have hfree : ruby_xml_schema_free w = ({ schema := none }, 1) := by
      simp [ruby_xml_schema_free, hs]
    have h0 := freeCallCount_of_none { schema := none } rfl
    refine ⟨?_, by rw [hfree], fun m => by rw [hfree]; exact h0 m⟩
    cases n with
    | zero => simp [freeCallCount]
    | succ m =>
      rw [freeCallCount, hfree]
      simp [h0 m]

end LibXmlRuby
